import Mathlib

/-!
Verification of the ats-boost scoring engine and session-state manager.

Texts are modelled as `List Char`; JavaScript strings from the source are
embedded through `String.data`.  JavaScript numbers appearing in the scoring
arithmetic are modelled as exact rationals (`ℚ`); `NaN` is modelled as `none`
in an `Option ℚ` wherever the source can produce it.  `Math.round` is
`jround` below (round half toward positive infinity, which is JavaScript's
rounding rule).
-/

namespace AtsBoost

/-- JavaScript `Math.round`: rounds half-way cases toward positive infinity. -/
def jround (q : ℚ) : ℤ := ⌊q + 1/2⌋

/-- Splits a character list into the maximal runs of characters satisfying
`p`, accumulating the current run (reversed) in `acc`.  This models the
behaviour of `String.prototype.match` with a global regex of the form
`/[clsss]+/g` (with `{n,}` length bounds applied by a separate filter). -/
def runsAux (p : Char → Bool) (acc : List Char) : List Char → List (List Char)
  | [] => if acc.isEmpty then [] else [acc.reverse]
  | c :: cs =>
    if p c then runsAux p (c :: acc) cs
    else if acc.isEmpty then runsAux p [] cs
    else acc.reverse :: runsAux p [] cs

/-- Maximal runs of characters satisfying `p` in a text. -/
def splitRuns (p : Char → Bool) (text : List Char) : List (List Char) :=
  runsAux p [] text

/-- JavaScript `text.toLowerCase()` restricted to its ASCII behaviour
(the program's tokenizers only distinguish ASCII letters). -/
def jsLower (text : List Char) : List Char := text.map Char.toLower

/-- Tokenizer of `part_004`'s `runAnalysis`:
`text.toLowerCase().match(/[a-zA-Z]{3,}/g) || []` — maximal alphabetic runs
of the lowercased text, keeping runs of length at least 3. -/
def tokens3 (text : List Char) : List (List Char) :=
  (splitRuns Char.isAlpha (jsLower text)).filter (fun r => 3 ≤ r.length)

/-- Character class of the regex `\w`: `[A-Za-z0-9_]`. -/
def isWordChar (c : Char) : Bool := c.isAlphanum || c = '_'

/-- Tokenizer of `part_003`'s `mockAnalysisEngine`:
`text.toLowerCase().match(/\w+/g) || []` — maximal word-character runs of
the lowercased text (no minimum length). -/
def tokensW (text : List Char) : List (List Char) :=
  splitRuns isWordChar (jsLower text)

/-- First-occurrence deduplication, as performed by JavaScript's
`Array.from(new Set(list))` (a `Set` keeps insertion order and the first
occurrence of each element).  `seen` holds the elements already emitted. -/
def jsDedupAux {α : Type} [DecidableEq α] (seen : List α) : List α → List α
  | [] => []
  | x :: xs =>
    if x ∈ seen then jsDedupAux seen xs
    else x :: jsDedupAux (x :: seen) xs

/-- JavaScript `Array.from(new Set(list))`. -/
def jsDedup {α : Type} [DecidableEq α] : List α → List α := jsDedupAux []

/-! ### part_004 `runAnalysis` scoring (the "naive local ATS score" engine)

Source, `src/unnamed/part_004` lines 133-148:
```
const jdWords = Array.from(new Set(payload.jobDescription.toLowerCase().match(/[a-zA-Z]{3,}/g) || []));
const resumeWords = new Set((payload.resume.toLowerCase().match(/[a-zA-Z]{3,}/g) || []));
const matched = jdWords.filter(w => resumeWords.has(w));
const coverage = Math.round((matched.length / Math.max(1, jdWords.length)) * 100);
const score = Math.min(100, Math.round(60 + coverage * 0.4));
```
-/

/-- The deduplicated job-description keyword list of `part_004`. -/
def jdWords4 (jd : List Char) : List (List Char) := jsDedup (tokens3 jd)

/-- The resume token list of `part_004` (used only through set membership,
so the `new Set` wrapper is modelled by `∈`). -/
def resumeWords4 (resume : List Char) : List (List Char) := tokens3 resume

/-- `jdWords.filter(w => resumeWords.has(w))`. -/
def matched4 (resume jd : List Char) : List (List Char) :=
  (jdWords4 jd).filter (fun w => decide (w ∈ resumeWords4 resume))

/-- `jdWords.filter(w => !resumeWords.has(w))`. -/
def missing4 (resume jd : List Char) : List (List Char) :=
  (jdWords4 jd).filter (fun w => !decide (w ∈ resumeWords4 resume))

/-- `Math.round((matched.length / Math.max(1, jdWords.length)) * 100)`. -/
def coverage4 (resume jd : List Char) : ℤ :=
  jround (((matched4 resume jd).length : ℚ) / ((max 1 (jdWords4 jd).length : ℕ) : ℚ) * 100)

/-- `Math.min(100, Math.round(60 + coverage * 0.4))`. -/
def score4 (resume jd : List Char) : ℤ :=
  min 100 (jround (60 + (coverage4 resume jd : ℚ) * 0.4))

/-- The analysis result record built by `part_004`'s `runAnalysis`. -/
structure Result4 where
  score : ℤ
  coverage : ℤ
  matchedKeywords : List (List Char)
  missingKeywords : List (List Char)
  insights : List String
  timestamp : ℤ
deriving DecidableEq

/-- The `result` object of `part_004`'s `runAnalysis` (lines 138-148). -/
def runAnalysisResult (resume jd : List Char) (timestamp : ℤ) : Result4 :=
  { score := score4 resume jd
    coverage := coverage4 resume jd
    matchedKeywords := (matched4 resume jd).take 100
    missingKeywords := (missing4 resume jd).take 100
    insights :=
      [ if coverage4 resume jd < 50 then
          "Low keyword coverage. Add more role-specific terms."
        else "Good keyword coverage.",
        if score4 resume jd < 75 then
          "Consider tailoring achievements with metrics."
        else "Strong alignment overall." ]
    timestamp := timestamp }

/-! ### part_003 `mockAnalysisEngine`

Source, `src/unnamed/part_003` lines 108-149:
```
const jdWords = jdText.toLowerCase().match(/\w+/g) || [];
const resumeWords = new Set(resumeText.toLowerCase().match(/\w+/g) || []);
const commonWords = jdWords.filter(w => resumeWords.has(w));
const coverage = Math.round((commonWords.length / jdWords.length) * 100) || 0;
const score = Math.min(coverage, 100);
```
The `|| 0` turns the `NaN` arising from `0 / 0` (empty job description)
into `0`; for a non-empty `jdWords` the rounded value is unchanged by
`|| 0` (a rounded `0` stays `0`), so the guard is modelled by the
`if jdWords = []` branch below. -/

/-- The (non-deduplicated) job-description token list of `part_003`. -/
def jdWords3 (jd : List Char) : List (List Char) := tokensW jd

/-- The resume token list of `part_003` (used through set membership). -/
def resumeWords3 (resume : List Char) : List (List Char) := tokensW resume

/-- `jdWords.filter(w => resumeWords.has(w))`. -/
def common3 (resume jd : List Char) : List (List Char) :=
  (jdWords3 jd).filter (fun w => decide (w ∈ resumeWords3 resume))

/-- `Math.round((commonWords.length / jdWords.length) * 100) || 0`. -/
def coverage3 (resume jd : List Char) : ℤ :=
  if (jdWords3 jd).length = 0 then 0
  else jround (((common3 resume jd).length : ℚ) / ((jdWords3 jd).length : ℚ) * 100)

/-- `Math.min(coverage, 100)`. -/
def score3 (resume jd : List Char) : ℤ := min (coverage3 resume jd) 100

/-- The result object of `part_003`'s `mockAnalysisEngine`. -/
structure Result3 where
  score : ℤ
  coverage : ℤ
  matchedKeywords : List (List Char)
  missingKeywords : List (List Char)
  insights : List String
  requiredKeywords : List (List Char)
  optionalKeywords : List (List Char)
  sectionSkills : ℤ
  sectionExperience : ℤ
  sectionEducation : ℤ
  experienceMatch : String
deriving DecidableEq

/-- `part_003`'s `mockAnalysisEngine` (lines 108-149 of `src/unnamed/part_003`). -/
def mockAnalysisEngine (resumeText jdText : List Char) : Result3 :=
  let score := score3 resumeText jdText
  { score := score
    coverage := coverage3 resumeText jdText
    matchedKeywords :=
      jsDedup (((jdWords3 jdText).filter
        (fun w => decide (w ∈ resumeWords3 resumeText) && decide (3 < w.length))).take 10)
    missingKeywords :=
      ((jdWords3 jdText).filter
        (fun w => !decide (w ∈ resumeWords3 resumeText) && decide (4 < w.length))).take 8
    insights :=
      [ if score < 50 then
          "Consider adding more relevant keywords from the job description."
        else "Good keyword match!",
        "Tailor your resume to highlight specific experiences mentioned in the JD." ]
    requiredKeywords := ["experience".data, "skills".data, "education".data]
    optionalKeywords := ["leadership".data, "communication".data, "teamwork".data]
    sectionSkills := min (score + 10) 100
    sectionExperience := max (score - 5) 0
    sectionEducation := score
    experienceMatch :=
      if 60 < score then "Strong" else if 40 < score then "Moderate" else "Weak" }

/-! ### History ledger appends

Each Dashboard variant appends by prepending the new entry and truncating
with `.slice(0, N)`; the capacity `N` differs between variants. -/

/-- History entry of `part_002` (`saveToHistory`, lines 74-85). -/
structure H2Entry where
  id : ℤ
  score : ℤ
  date : String
  resumeName : String
deriving DecidableEq

/-- `part_002` line 82: `[newEntry, ...history].slice(0, 10)`. -/
def saveToHistoryPush (e : H2Entry) (history : List H2Entry) : List H2Entry :=
  (e :: history).take 10

/-- History entry of `part_003` (`handleAnalyze`, lines 164-171). -/
structure H3Entry where
  id : ℤ
  date : String
  resumeFile : String
  jdFile : String
  score : ℤ
  coverage : ℤ
deriving DecidableEq

/-- `part_003` line 172: `setHistory(prev => [newEntry, ...prev].slice(0, 10))`. -/
def historyPush3 (e : H3Entry) (history : List H3Entry) : List H3Entry :=
  (e :: history).take 10

/-- History entry of `part_004` (`runAnalysis`, lines 151-158). -/
structure H4Entry where
  id : ℤ
  resumeFile : String
  jdFile : String
  score : ℤ
  coverage : ℤ
  date : String
deriving DecidableEq

/-- `part_004` line 158: `[...].slice(0, 50)`. -/
def historyPush4 (e : H4Entry) (history : List H4Entry) : List H4Entry :=
  (e :: history).take 50

/-- History entry of `Dashboard.jsx` (`pushHistory`, lines 115-118);
the source field `type` is renamed `entryType` (Lean keyword). -/
structure HDEntry where
  id : ℤ
  entryType : String
  date : String
  resume : String
  jd : String
  resultSummary : String
deriving DecidableEq

/-- `Dashboard.jsx` line 117: `setHistory((h) => [item, ...h].slice(0, 20))`. -/
def pushHistory (item : HDEntry) (h : List HDEntry) : List HDEntry :=
  (item :: h).take 20

/-- History entry of `part_005` (`usePersistentHistory`, lines 87-98). -/
structure H5Entry where
  ts : ℤ
  score : ℤ
  matched : ℕ
  missing : ℕ
deriving DecidableEq

/-- `part_005` line 96: `[...].slice(0, 10)`. -/
def persistentHistoryPush (e : H5Entry) (h : List H5Entry) : List H5Entry :=
  (e :: h).take 10

/-- Appending a sequence of entries in order with a push function,
starting from an existing history (oldest entry of the sequence first). -/
def appendAll {α : Type} (push : α → List α → List α) (init : List α)
    (entries : List α) : List α :=
  entries.foldl (fun h e => push e h) init

/-! ### Storage restore on mount

A raw persisted string either deserializes to a value or is corrupt
(`JSON.parse` throws).  The serialized form is modelled by the value it
decodes to, so `Raw.good v` stands for a well-formed stored string and
`Raw.corrupt` for a malformed one; an absent key is `none`
(`getItem` returned `null`, the `if (saved...)` guard skips it). -/
inductive Raw (α : Type) where
  | good (a : α)
  | corrupt
deriving DecidableEq

/-- Reading one storage key inside the mount effect: absent keys are
skipped, well-formed values are parsed, corrupt values throw. -/
def parseStored {α : Type} : Option (Raw α) → Except Unit (Option α)
  | none => .ok none
  | some (.good a) => .ok (some a)
  | some .corrupt => .error ()

/-- The state restored by the mount effect. -/
structure Restored (α β γ : Type) where
  history : Option α
  resumeData : Option β
  jobDescriptionData : Option γ
deriving DecidableEq

/-- The restore-on-mount effect of `part_004` (lines 33-50) and
`Dashboard.jsx` (lines 37-50): the three keys (history, resume, job
description) are read and parsed in this order inside a single
`try { ... } catch`, so the first corrupt value aborts the remaining
restores while keeping what was already set.  The `catch` only logs, so
nothing escapes the effect. -/
def restoreOnMount {α β γ : Type} (h : Option (Raw α)) (r : Option (Raw β))
    (j : Option (Raw γ)) : Restored α β γ :=
  match parseStored h with
  | .error _ => ⟨none, none, none⟩
  | .ok oh =>
    match parseStored r with
    | .error _ => ⟨oh, none, none⟩
    | .ok orr =>
      match parseStored j with
      | .error _ => ⟨oh, orr, none⟩
      | .ok oj => ⟨oh, orr, oj⟩

/-- The initial-state loader of `part_005`'s `usePersistentHistory`
(lines 66-73): its single key is read in its own `try`, with `[]` as the
fallback for both an absent and a corrupt value. -/
def loadPersistedHistory {α : Type} : Option (Raw (List α)) → List α
  | some (.good l) => l
  | some .corrupt => []
  | none => []

/-! ### Session state of the two Dashboard variants -/

/-- A loaded document: `{ fileName, text }`. -/
structure Doc where
  fileName : String
  text : List Char
deriving DecidableEq

/-- Session state of the `part_003` Dashboard.  The `ls*` fields model the
`localStorage` key-value slots (`ats-resume`, `ats-jd`, `ats-history`),
holding the decoded form of the serialized value. -/
structure State3 where
  resumeData : Option Doc
  jobDescriptionData : Option Doc
  currentView : String
  history : List H3Entry
  loading : Bool
  error : Option String
  analysisResult : Option Result3
  lsResume : Option Doc
  lsJd : Option Doc
  lsHistory : Option (List H3Entry)
deriving DecidableEq

/-- `part_003`'s `handleAnalyze` (lines 151-175), collapsed over its
`setTimeout`: with a missing document it only sets `error` and returns
before any scoring; otherwise it runs the engine, replaces the result,
switches the view, appends to history (also persisted by the
`[history]` effect) and ends with `loading` false and `error` cleared.
`id` and `date` stand for `Date.now()` and `toISOString()`. -/
def handleAnalyze3 (s : State3) (id : ℤ) (date : String) : State3 :=
  match s.resumeData, s.jobDescriptionData with
  | some rd, some jd =>
    let result := mockAnalysisEngine rd.text jd.text
    let newEntry : H3Entry :=
      { id := id, date := date, resumeFile := rd.fileName, jdFile := jd.fileName,
        score := result.score, coverage := result.coverage }
    let newHistory := historyPush3 newEntry s.history
    { s with
      loading := false
      error := none
      analysisResult := some result
      currentView := "analysis"
      history := newHistory
      lsHistory := some newHistory }
  | _, _ =>
    { s with error := some "Please upload both a resume and a job description before analyzing." }

/-- `part_003`'s `clearAll` (lines 182-194): clears documents, result and
error, returns to the upload view and removes the two document storage
keys; the history state and its storage key are not touched. -/
def clearAll3 (s : State3) : State3 :=
  { s with
    resumeData := none
    jobDescriptionData := none
    analysisResult := none
    error := none
    currentView := "upload"
    lsResume := none
    lsJd := none }

/-- Session state of the `part_004` Dashboard.  `ssResume`/`ssJd` model the
`sessionStorage` document keys, `lsHistory` the `localStorage` history key. -/
structure State4 where
  resumeData : Option Doc
  jobDescriptionData : Option Doc
  currentView : String
  history : List H4Entry
  loading : Bool
  error : Option String
  analysisResult : Option Result4
  ssResume : Option Doc
  ssJd : Option Doc
  lsHistory : Option (List H4Entry)
deriving DecidableEq

/-- `part_004` line 73: `canAnalyze = !!(resumeData?.text && jobDescriptionData?.text)`
(a missing document or an empty text is falsy). -/
def canAnalyze4 (s : State4) : Bool :=
  (match s.resumeData with | some d => !d.text.isEmpty | none => false) &&
  (match s.jobDescriptionData with | some d => !d.text.isEmpty | none => false)

/-- `part_004`'s `runAnalysis` (lines 121-165): `if (!canAnalyze) return;`
leaves the state untouched (in particular no error message is set);
otherwise it clears the error, switches the view, stores the result and
appends a history entry (cap 50, persisted by the `[history]` effect),
ending with `loading` false.  `now` stands for `Date.now()` and
`dateStr` for the derived ISO date string. -/
def runAnalysis4 (s : State4) (now : ℤ) (dateStr : String) : State4 :=
  if canAnalyze4 s then
    match s.resumeData, s.jobDescriptionData with
    | some rd, some jd =>
      let result := runAnalysisResult rd.text jd.text now
      let entry : H4Entry :=
        { id := result.timestamp, resumeFile := rd.fileName, jdFile := jd.fileName,
          score := result.score, coverage := result.coverage, date := dateStr }
      let newHistory := historyPush4 entry s.history
      { s with
        error := none
        loading := false
        currentView := "analysis"
        analysisResult := some result
        history := newHistory
        lsHistory := some newHistory }
    | _, _ => s
  else s

/-- `part_004`'s `clearAll` (lines 167-175): clears documents, result and
error, removes the two `sessionStorage` document keys and returns to the
upload view; the history state and its `localStorage` key are untouched. -/
def clearAll4 (s : State4) : State4 :=
  { s with
    resumeData := none
    jobDescriptionData := none
    analysisResult := none
    error := none
    currentView := "upload"
    ssResume := none
    ssJd := none }

/-! ### The display-boundary score recomputation of `part_005`

`computeATSScore` receives a dynamically-typed result object, so its
fields are modelled by `JSVal`.  JavaScript's `NaN` is `JSVal.nan` as a
value and `none : Option ℚ` as the outcome of a numeric computation
(`Math.max`, `Math.min`, arithmetic and `Math.round` all propagate `NaN`,
which the `Option` map mirrors). -/

/-- A JavaScript value as far as the display layer inspects one: a finite
number, `NaN`, a string, or `undefined` (also standing for an absent
field). -/
inductive JSVal where
  | num (q : ℚ)
  | nan
  | str (s : String)
  | undef
deriving DecidableEq

/-- Numeric value of a digit list, most significant first. -/
def digitsToNat (l : List Char) : ℕ :=
  l.foldl (fun n c => 10 * n + (c.toNat - 48)) 0

/-- Decimal-digit check for a character list. -/
def allDigits (l : List Char) : Bool := l.all Char.isDigit

/-- JavaScript `Number(string)` for the string shapes this program can
produce: surrounding whitespace is trimmed, the empty string is `0`, an
optional sign followed by decimal digits with an optional fraction parses
to its value, and every other shape (such as the word `Strong`) is `NaN`
(`none`).  Exponent, hex and `Infinity` forms are out of scope: the
program never stores such strings in a result. -/
def jsStrToNum (s : String) : Option ℚ :=
  let t := ((s.data.dropWhile Char.isWhitespace).reverse.dropWhile Char.isWhitespace).reverse
  if t.isEmpty then some 0
  else
    let signed : ℚ × List Char :=
      match t with
      | '-' :: rest => (-1, rest)
      | '+' :: rest => (1, rest)
      | _ => (1, t)
    let intPart := signed.2.takeWhile (fun c => c ≠ '.')
    match signed.2.dropWhile (fun c => c ≠ '.') with
    | [] =>
      if !intPart.isEmpty && allDigits intPart then
        some (signed.1 * digitsToNat intPart)
      else none
    | _ :: frac =>
      if (!intPart.isEmpty || !frac.isEmpty) && allDigits intPart && allDigits frac then
        some (signed.1 * ((digitsToNat intPart : ℚ) + (digitsToNat frac : ℚ) / 10 ^ frac.length))
      else none

/-- JavaScript `Number(x)` on a `JSVal`; `none` is `NaN`. -/
def toNumber : JSVal → Option ℚ
  | .num q => some q
  | .nan => none
  | .str s => jsStrToNum s
  | .undef => none

/-- JavaScript truthiness for a `JSVal`. -/
def truthy : JSVal → Bool
  | .num q => q != 0
  | .nan => false
  | .str s => s != ""
  | .undef => false

/-- JavaScript `a || b`. -/
def jsOr (a b : JSVal) : JSVal := if truthy a then a else b

/-- JavaScript `a ?? b` (nullish coalescing; `undef` also stands for `null`). -/
def jsNullish (a b : JSVal) : JSVal :=
  match a with
  | .undef => b
  | _ => a

/-- JavaScript `a < q` with a numeric right operand: the left operand is
coerced with `ToNumber`, and a `NaN` comparison is `false`. -/
def jsLtNum (a : JSVal) (q : ℚ) : Bool :=
  match toNumber a with
  | some x => decide (x < q)
  | none => false

/-- The `result` object as the `part_005` display layer reads it: the
keyword lists may be absent, the section-score map is a list of
name/value entries with dynamically-typed values, and `experienceMatch`
is dynamically typed (`part_003`'s engine stores a string there). -/
structure AData where
  matchedKeywords : Option (List String)
  missingKeywords : Option (List String)
  requiredKeywords : Option (List String)
  sectionScores : Option (List (String × JSVal))
  experienceMatch : JSVal
deriving DecidableEq

/-- `Number(data?.matchedKeywords?.length || 0)` (part_005 line 43). -/
def matchedCount5 (d : AData) : ℕ := (d.matchedKeywords.getD []).length

/-- `Number(data?.missingKeywords?.length || 0)` (part_005 line 44). -/
def missingCount5 (d : AData) : ℕ := (d.missingKeywords.getD []).length

/-- `const keywordTotal = matched + missing || 1` (part_005 line 45). -/
def keywordTotal5 (d : AData) : ℕ :=
  if matchedCount5 d + missingCount5 d = 0 then 1 else matchedCount5 d + missingCount5 d

/-- `const keywordRate = matched / keywordTotal` (part_005 line 46). -/
def keywordRate5 (d : AData) : ℚ :=
  (matchedCount5 d : ℚ) / (keywordTotal5 d : ℚ)

/-- `Object.values(sec).map(Number).filter((v) => !Number.isNaN(v))`
(part_005 line 50). -/
def sectionVals5 (d : AData) : List ℚ :=
  (d.sectionScores.getD []).filterMap (fun kv => toNumber kv.2)

/-- The `sectionAvg` closure of part_005 lines 48-54: `0` for an empty
value list, otherwise `sum / count / 100`. -/
def sectionAvg5 (d : AData) : ℚ :=
  if (sectionVals5 d).isEmpty then 0
  else (sectionVals5 d).sum / ((sectionVals5 d).length : ℚ) / 100

/-- `Math.max(0, Math.min(1, Number(data?.experienceMatch || 0)))`
(part_005 line 56); a `NaN` passes through both `Math.min` and
`Math.max` unclamped. -/
def experience5 (d : AData) : Option ℚ :=
  (toNumber (jsOr d.experienceMatch (.num 0))).map (fun q => max 0 (min 1 q))

/-- `part_005`'s `computeATSScore` (lines 41-61): `0` for a null result,
otherwise `Math.round((keywordRate*0.4 + sectionAvg*0.3 + experience*0.3) * 100)`;
the result is `NaN` (`none`) exactly when the experience term is. -/
def computeATSScore5 : Option AData → Option ℤ
  | none => some 0
  | some d =>
    (experience5 d).map (fun e =>
      jround ((keywordRate5 d * 0.4 + sectionAvg5 d * 0.3 + e * 0.3) * 100))

/-- The `result` object as `Analysis.jsx`'s `computeATSScore` reads it. -/
structure JxData where
  coverage : JSVal
  sectionOverall : JSVal
  experienceMatch : JSVal
deriving DecidableEq

/-- `Analysis.jsx`'s `computeATSScore` (lines 48-65): `0` for a null
result, otherwise `Math.round(coverage*0.4 + sectionScores.overall*0.3 +
experienceMatch*0.3)` with `|| 0` defaults and no clamping; any `NaN`
operand makes the result `NaN` (`none`). -/
def computeATSScoreJsx : Option JxData → Option ℤ
  | none => some 0
  | some d =>
    match toNumber (jsOr d.coverage (.num 0)),
          toNumber (jsOr d.sectionOverall (.num 0)),
          toNumber (jsOr d.experienceMatch (.num 0)) with
    | some k, some sc, some e => some (jround (k * 0.4 + sc * 0.3 + e * 0.3))
    | _, _, _ => none

/-! ### The insight generator of `part_005` (`actionableTips`, lines 181-212) -/

/-- Tip template of part_005 line 190. -/
def tipBullet (kw : String) : String :=
  "Add a concrete bullet using \"" ++ kw ++ "\" with measurable impact (e.g., increased X by Y%)."

/-- Tip template of part_005 line 191. -/
def tipPlacement (kw : String) : String :=
  "Place \"" ++ kw ++ "\" in both Summary and Experience sections to pass ATS term frequency checks."

/-- Tip template of part_005 line 197. -/
def tipRequired (kw : String) : String :=
  "Mark as Required: ensure \"" ++ kw ++ "\" appears verbatim at least once."

/-- Tip template of part_005 line 202. -/
def tipSection (name : String) : String :=
  "Strengthen " ++ name ++ ": add 2-3 bullets with quantified results and relevant tools."

/-- Tip of part_005 line 207. -/
def tipExperience : String :=
  "Align experience: mirror JD responsibilities with action verbs and matching scope/scale."

/-- The `tips` array of `actionableTips` as accumulated by lines 182-207,
before deduplication and truncation: two templated tips per missing
keyword, one per required keyword absent from the matched list, one per
section entry whose coerced value is below 70, and one when the
experience match (defaulting to 0) is below 0.6. -/
def rawTips (r : Option AData) : List String :=
  let missing := (r.bind AData.missingKeywords).getD []
  let required := (r.bind AData.requiredKeywords).getD []
  let matchedK := (r.bind AData.matchedKeywords).getD []
  let sections := (r.bind AData.sectionScores).getD []
  let exp := match r with | some d => d.experienceMatch | none => .undef
  (missing.flatMap (fun kw => [tipBullet kw, tipPlacement kw])) ++
  ((required.filter (fun kw => !(matchedK.contains kw))).map tipRequired) ++
  (sections.filterMap (fun kv =>
    match toNumber (jsOr kv.2 (.num 0)) with
    | some v => if v < 70 then some (tipSection kv.1) else none
    | none => none)) ++
  (if jsLtNum (jsNullish exp (.num 0)) 0.6 then [tipExperience] else [])

/-- Lines 210-211: `const unique = Array.from(new Set(tips)); return unique.slice(0, 20);`. -/
def actionableTips (r : Option AData) : List String :=
  (jsDedup (rawTips r)).take 20

/-! ## Helper lemmas -/

theorem mem_jsDedupAux {α : Type} [DecidableEq α] (seen l : List α) (x : α) :
    x ∈ jsDedupAux seen l ↔ x ∈ l ∧ x ∉ seen := by
  induction l generalizing seen with
  | nil => simp [jsDedupAux]
  | cons y ys ih =>
    by_cases hy : y ∈ seen
    · rw [jsDedupAux, if_pos hy, ih]
      constructor
      · rintro ⟨h1, h2⟩
        exact ⟨List.mem_cons_of_mem _ h1, h2⟩
      · rintro ⟨h1, h2⟩
        rcases List.mem_cons.mp h1 with rfl | h1
        · exact absurd hy h2
        · exact ⟨h1, h2⟩
    · rw [jsDedupAux, if_neg hy]
      simp only [List.mem_cons, ih]
      constructor
      · rintro (rfl | ⟨h1, h2⟩)
        · exact ⟨Or.inl rfl, hy⟩
        · exact ⟨Or.inr h1, fun hx => h2 (Or.inr hx)⟩
      · rintro ⟨rfl | h1, h2⟩
        · exact Or.inl rfl
        · by_cases hxy : x = y
          · exact Or.inl hxy
          · exact Or.inr ⟨h1, fun hx => hx.elim hxy h2⟩

theorem mem_jsDedup {α : Type} [DecidableEq α] (l : List α) (x : α) :
    x ∈ jsDedup l ↔ x ∈ l := by
  rw [jsDedup, mem_jsDedupAux]
  simp

theorem nodup_jsDedupAux {α : Type} [DecidableEq α] (seen l : List α) :
    (jsDedupAux seen l).Nodup := by
  induction l generalizing seen with
  | nil => exact List.nodup_nil
  | cons y ys ih =>
    by_cases hy : y ∈ seen
    · rw [jsDedupAux, if_pos hy]
      exact ih seen
    · rw [jsDedupAux, if_neg hy]
      refine List.nodup_cons.mpr ⟨fun hmem => ?_, ih (y :: seen)⟩
      exact ((mem_jsDedupAux _ _ _).mp hmem).2 (List.mem_cons_self y seen)

theorem nodup_jsDedup {α : Type} [DecidableEq α] (l : List α) :
    (jsDedup l).Nodup := nodup_jsDedupAux [] l

theorem length_filter_add_length_filter_not {α : Type} (l : List α) (p : α → Bool) :
    (l.filter p).length + (l.filter (fun a => !p a)).length = l.length := by
  induction l with
  | nil => rfl
  | cons x xs ih =>
    cases hp : p x <;> simp [List.filter_cons, hp] <;> omega

theorem take_append_take {α : Type} (A C : List α) (n : ℕ) :
    (A ++ C.take n).take n = (A ++ C).take n := by
  rw [List.take_append_eq_append_take, List.take_append_eq_append_take, List.take_take]
  have : min (n - A.length) n = n - A.length := Nat.min_eq_left (Nat.sub_le n _)
  rw [this]

theorem appendAll_take {α : Type} (cap : ℕ) (entries init : List α)
    (hinit : init.length ≤ cap) :
    appendAll (fun e h => (e :: h).take cap) init entries =
      (entries.reverse ++ init).take cap := by
  induction entries generalizing init with
  | nil => simp [appendAll, List.take_of_length_le hinit]
  | cons e t ih =>
    have step : appendAll (fun e h => (e :: h).take cap) init (e :: t) =
        appendAll (fun e h => (e :: h).take cap) ((e :: init).take cap) t := rfl
    rw [step, ih ((e :: init).take cap) (List.length_take_le _ _), take_append_take,
      List.reverse_cons, List.append_assoc]
    rfl

/-! ## Claim C4 — history capacity -/

/-- C4 counterexample: the history appends do NOT all use the same
capacity constant.  Appending the same number of entries (20) to an empty
ledger leaves 20 entries under `part_004`'s append (`slice(0, 50)`) but
only 10 under `part_002`'s append (`slice(0, 10)`), so there is no single
documented capacity `N` shared by every history append in the program. -/
theorem history_capacity_counterexample :
    (appendAll historyPush4 []
      ((List.range 20).map (fun i => ⟨(i : ℤ), "r.txt", "jd.txt", 0, 0, "d"⟩))).length = 20 ∧
    (appendAll saveToHistoryPush []
      ((List.range 20).map (fun i => ⟨(i : ℤ), 0, "d", "r.txt"⟩))).length = 10 := by
  constructor <;> rfl

/-- C4 (amended): every history append prepends the new entry and
truncates, but to a per-variant capacity: 10 in `part_002`, `part_003`
and `part_005`, 20 in `Dashboard.jsx`, 50 in `part_004`.  For each
variant, appending entries to an empty ledger yields the reversal of the
append order (most-recent-first) truncated to that capacity; in
particular appending `N + 5` entries leaves exactly `N`. -/
theorem history_capacity_amended
    (e2 : List H2Entry) (e3 : List H3Entry) (e4 : List H4Entry)
    (eD : List HDEntry) (e5 : List H5Entry)
    (h2 : e2.length = 15) (h3 : e3.length = 15) (h4 : e4.length = 55)
    (hD : eD.length = 25) (h5 : e5.length = 15) :
    appendAll saveToHistoryPush [] e2 = e2.reverse.take 10 ∧
      (appendAll saveToHistoryPush [] e2).length = 10 ∧
    appendAll historyPush3 [] e3 = e3.reverse.take 10 ∧
      (appendAll historyPush3 [] e3).length = 10 ∧
    appendAll historyPush4 [] e4 = e4.reverse.take 50 ∧
      (appendAll historyPush4 [] e4).length = 50 ∧
    appendAll pushHistory [] eD = eD.reverse.take 20 ∧
      (appendAll pushHistory [] eD).length = 20 ∧
    appendAll persistentHistoryPush [] e5 = e5.reverse.take 10 ∧
      (appendAll persistentHistoryPush [] e5).length = 10 := by
  have q2 : appendAll saveToHistoryPush [] e2 = e2.reverse.take 10 := by
    have := appendAll_take 10 e2 [] (by simp)
    simpa [appendAll] using this
  have q3 : appendAll historyPush3 [] e3 = e3.reverse.take 10 := by
    have := appendAll_take 10 e3 [] (by simp)
    simpa [appendAll] using this
  have q4 : appendAll historyPush4 [] e4 = e4.reverse.take 50 := by
    have := appendAll_take 50 e4 [] (by simp)
    simpa [appendAll] using this
  have qD : appendAll pushHistory [] eD = eD.reverse.take 20 := by
    have := appendAll_take 20 eD [] (by simp)
    simpa [appendAll] using this
  have q5 : appendAll persistentHistoryPush [] e5 = e5.reverse.take 10 := by
    have := appendAll_take 10 e5 [] (by simp)
    simpa [appendAll] using this
  refine ⟨q2, ?_, q3, ?_, q4, ?_, qD, ?_, q5, ?_⟩ <;>
    simp [q2, q3, q4, q5, qD, h2, h3, h4, h5, hD]

/-- C4 witness: a concrete run of the amended claim at capacity-plus-five
entry lists. -/
theorem history_capacity_witness :
    ((List.range 15).map (fun i => (⟨(i : ℤ), 0, "d", "r"⟩ : H2Entry))).length = 15 ∧
    (appendAll saveToHistoryPush []
      ((List.range 15).map (fun i => (⟨(i : ℤ), 0, "d", "r"⟩ : H2Entry)))).length = 10 := by
  refine ⟨by decide, ?_⟩
  exact (history_capacity_amended
    ((List.range 15).map (fun i => (⟨(i : ℤ), 0, "d", "r"⟩ : H2Entry)))
    ((List.range 15).map (fun i => (⟨(i : ℤ), "d", "r", "j", 0, 0⟩ : H3Entry)))
    ((List.range 55).map (fun i => (⟨(i : ℤ), "r", "j", 0, 0, "d"⟩ : H4Entry)))
    ((List.range 25).map (fun i => (⟨(i : ℤ), "analysis", "d", "r", "j", ""⟩ : HDEntry)))
    ((List.range 15).map (fun i => (⟨(i : ℤ), 0, 0, 0⟩ : H5Entry)))
    (by decide) (by decide) (by decide) (by decide) (by decide)).2.1

/-! ## Claim C5 — restore isolation -/

/-- C5 counterexample: on mount, a corrupt history value prevents the
resume and job-description keys from being restored even though both
hold well-formed values, because all three keys are parsed inside one
`try` block (`part_004` lines 33-50, `Dashboard.jsx` lines 37-50). -/
theorem restore_isolation_counterexample :
    restoreOnMount (α := ℕ) (β := ℕ) (γ := ℕ)
      (some .corrupt) (some (.good 1)) (some (.good 2)) =
      ⟨none, none, none⟩ := rfl

/-- C5 (amended): the mount effect never throws past its boundary (it is
a total function into restored states), and a key that parses is
restored whenever no earlier key was corrupt; but the keys are parsed in
one guarded scope, so a corrupt history value aborts the resume and
job-description restores.  Only `part_005`'s single-key history hook
falls back to an empty history on a corrupt value in isolation. -/
theorem restore_isolation_amended {α β γ δ : Type}
    (h : Option (Raw α)) (r : Option (Raw β)) (j : Option (Raw γ)) :
    (h = some .corrupt → restoreOnMount h r j = ⟨none, none, none⟩) ∧
    (∀ oh orr oj, parseStored h = .ok oh → parseStored r = .ok orr →
      parseStored j = .ok oj → restoreOnMount h r j = ⟨oh, orr, oj⟩) ∧
    (∀ x : Option (Raw (List δ)), x = some .corrupt → loadPersistedHistory x = []) := by
  refine ⟨fun hc => ?_, fun oh orr oj h1 h2 h3 => ?_, fun x hx => ?_⟩
  · subst hc; rfl
  · simp only [restoreOnMount, h1, h2, h3]
  · subst hx; rfl

/-- C5 witness: concrete instantiation of the amended claim with all
three keys well-formed. -/
theorem restore_isolation_witness :
    restoreOnMount (α := ℕ) (β := ℕ) (γ := ℕ)
      (some (.good 7)) (some (.good 8)) none = ⟨some 7, some 8, none⟩ :=
  (restore_isolation_amended (δ := ℕ)
    (some (.good 7)) (some (.good 8)) none).2.1 (some 7) (some 8) none rfl rfl rfl

/-! ## Claim C6 — runAnalysis with missing documents -/

/-- C6 counterexample: `part_004`'s `runAnalysis` does NOT set the error
field when a document is missing — `if (!canAnalyze) return;` leaves the
state (including `error`) untouched, so no "specific message" is set. -/
theorem missing_docs_counterexample :
    (runAnalysis4
      { resumeData := none, jobDescriptionData := none, currentView := "upload",
        history := [], loading := false, error := none, analysisResult := none,
        ssResume := none, ssJd := none, lsHistory := none } 0 "1970-01-01").error = none := rfl

/-- C6 (amended): with a missing resume or job-description document, no
scoring happens and `currentResult` and `history` are unchanged in both
Dashboard variants; `part_003`'s `handleAnalyze` sets the error field to
the specific message "Please upload both a resume and a job description
before analyzing.", while `part_004`'s `runAnalysis` returns with the
whole state — including `error` — unchanged. -/
theorem missing_docs_amended :
    (∀ (s : State3) (id : ℤ) (date : String),
      s.resumeData = none ∨ s.jobDescriptionData = none →
      handleAnalyze3 s id date =
        { s with error := some "Please upload both a resume and a job description before analyzing." } ∧
      (handleAnalyze3 s id date).history = s.history ∧
      (handleAnalyze3 s id date).analysisResult = s.analysisResult) ∧
    (∀ (s : State4) (now : ℤ) (dateStr : String),
      s.resumeData = none ∨ s.jobDescriptionData = none →
      runAnalysis4 s now dateStr = s) := by
  constructor
  · intro s id date hmiss
    have key : handleAnalyze3 s id date =
        { s with error := some "Please upload both a resume and a job description before analyzing." } := by
      rcases hr : s.resumeData with _ | rd <;> rcases hj : s.jobDescriptionData with _ | jd <;>
        simp only [handleAnalyze3, hr, hj]
      rw [hr] at hmiss
      rw [hj] at hmiss
      rcases hmiss with hmiss | hmiss <;> exact absurd hmiss (by simp)
    exact ⟨key, by rw [key], by rw [key]⟩
  · intro s now dateStr hmiss
    have hc : canAnalyze4 s = false := by
      rcases hmiss with hmiss | hmiss <;> simp [canAnalyze4, hmiss]
    rw [runAnalysis4, hc]
    simp

/-- C6 witness: concrete states with a missing resume document. -/
theorem missing_docs_witness :
    (handleAnalyze3
      { resumeData := none, jobDescriptionData := none, currentView := "upload",
        history := [], loading := false, error := none, analysisResult := none,
        lsResume := none, lsJd := none, lsHistory := none } 0 "1970-01-01").error =
      some "Please upload both a resume and a job description before analyzing." := by
  have h := (missing_docs_amended.1
    { resumeData := none, jobDescriptionData := none, currentView := "upload",
      history := [], loading := false, error := none, analysisResult := none,
      lsResume := none, lsJd := none, lsHistory := none } 0 "1970-01-01"
    (Or.inl rfl)).1
  rw [h]

/-! ## Claim C7 — reset frame -/

/-- C7: in both Dashboard variants, `clearAll` clears the in-memory
documents, result and error, removes the two persisted document keys,
and leaves the history field and its persisted key unchanged. -/
theorem reset_frame (s3 : State3) (s4 : State4) :
    (clearAll3 s3).history = s3.history ∧ (clearAll3 s3).lsHistory = s3.lsHistory ∧
    (clearAll3 s3).resumeData = none ∧ (clearAll3 s3).jobDescriptionData = none ∧
    (clearAll3 s3).analysisResult = none ∧ (clearAll3 s3).error = none ∧
    (clearAll3 s3).lsResume = none ∧ (clearAll3 s3).lsJd = none ∧
    (clearAll4 s4).history = s4.history ∧ (clearAll4 s4).lsHistory = s4.lsHistory ∧
    (clearAll4 s4).resumeData = none ∧ (clearAll4 s4).jobDescriptionData = none ∧
    (clearAll4 s4).analysisResult = none ∧ (clearAll4 s4).error = none ∧
    (clearAll4 s4).ssResume = none ∧ (clearAll4 s4).ssJd = none :=
  ⟨rfl, rfl, rfl, rfl, rfl, rfl, rfl, rfl, rfl, rfl, rfl, rfl, rfl, rfl, rfl, rfl⟩

/-! ## Claim C2 — keyword partition -/

/-- C2 counterexample: `part_003`'s engine violates the partition
invariant.  For resume `""` and job description `"word"`, the
deduplicated JD keyword set is `{word}`, yet both output lists are empty
(`word` is not in the resume, and the missing filter requires
`w.length > 4` while `word` has length 4), so the union misses `word`
and the lengths sum to 0, not 1. -/
theorem keyword_partition_counterexample :
    (mockAnalysisEngine "".data "word".data).matchedKeywords = [] ∧
    (mockAnalysisEngine "".data "word".data).missingKeywords = [] ∧
    jsDedup (jdWords3 "word".data) = ["word".data] ∧
    (mockAnalysisEngine "".data "word".data).matchedKeywords.length +
      (mockAnalysisEngine "".data "word".data).missingKeywords.length ≠
      (jsDedup (jdWords3 "word".data)).length := by
  refine ⟨?_, ?_, ?_, ?_⟩ <;> decide

/-- C2 (amended): in `part_004`'s engine the matched and missing keyword
lists are always disjoint, and whenever neither list overflows the
`slice(0, 100)` cap they partition the deduplicated job-description
keyword set with lengths summing to its size.  (`part_003`'s engine
guarantees only disjointness: its matched/missing filters use different
length thresholds and caps, see the counterexample.) -/
theorem keyword_partition_amended (resume jd : List Char) (t : ℤ) :
    (∀ w, w ∈ (runAnalysisResult resume jd t).matchedKeywords →
      w ∉ (runAnalysisResult resume jd t).missingKeywords) ∧
    ((matched4 resume jd).length ≤ 100 → (missing4 resume jd).length ≤ 100 →
      (∀ w, (w ∈ (runAnalysisResult resume jd t).matchedKeywords ∨
          w ∈ (runAnalysisResult resume jd t).missingKeywords) ↔ w ∈ jdWords4 jd) ∧
      (runAnalysisResult resume jd t).matchedKeywords.length +
        (runAnalysisResult resume jd t).missingKeywords.length = (jdWords4 jd).length) := by
  constructor
  · intro w hw hw'
    have hm : w ∈ matched4 resume jd :=
      List.take_subset _ _ hw
    have hm' : w ∈ missing4 resume jd :=
      List.take_subset _ _ hw'
    rw [matched4, List.mem_filter] at hm
    rw [missing4, List.mem_filter] at hm'
    rw [hm.2] at hm'
    simp at hm'
  · intro hlen hlen'
    have hmtake : (runAnalysisResult resume jd t).matchedKeywords = matched4 resume jd :=
      List.take_of_length_le hlen
    have hmisstake : (runAnalysisResult resume jd t).missingKeywords = missing4 resume jd :=
      List.take_of_length_le hlen'
    constructor
    · intro w
      rw [hmtake, hmisstake, matched4, missing4, List.mem_filter, List.mem_filter]
      by_cases hw : w ∈ resumeWords4 resume <;> simp [hw]
    · rw [hmtake, hmisstake, matched4, missing4]
      exact length_filter_add_length_filter_not _ _

/-- C2 witness: the amended partition at a concrete resume/JD pair. -/
theorem keyword_partition_witness :
    (matched4 "java developer".data "java python".data).length ≤ 100 ∧
    (missing4 "java developer".data "java python".data).length ≤ 100 ∧
    (runAnalysisResult "java developer".data "java python".data 0).matchedKeywords.length +
      (runAnalysisResult "java developer".data "java python".data 0).missingKeywords.length =
      (jdWords4 "java python".data).length := by
  refine ⟨by decide, by decide, ?_⟩
  exact ((keyword_partition_amended "java developer".data "java python".data 0).2
    (by decide) (by decide)).2

/-! ## Claim C3 — empty job description -/

/-- C3: when the job description yields no keywords under the engine's
tokenizer, both engines return `coverage = 0` and a well-defined score
(60 in `part_004`, whose formula adds a base of 60; 0 in `part_003`,
whose `|| 0` guard absorbs the `NaN` of `0 / 0`), with empty
matched/missing lists in `part_004` — no division fault or `NaN` reaches
the result. -/
theorem empty_jd_safe (resume jd : List Char) (t : ℤ) :
    (tokens3 jd = [] →
      coverage4 resume jd = 0 ∧ score4 resume jd = 60 ∧
      (runAnalysisResult resume jd t).matchedKeywords = [] ∧
      (runAnalysisResult resume jd t).missingKeywords = []) ∧
    (jdWords3 jd = [] → coverage3 resume jd = 0 ∧ score3 resume jd = 0) := by
  constructor
  · intro h
    have hjw : jdWords4 jd = [] := by rw [jdWords4, h]; rfl
    have hm : matched4 resume jd = [] := by rw [matched4, hjw]; rfl
    have hmiss : missing4 resume jd = [] := by rw [missing4, hjw]; rfl
    have hcov : coverage4 resume jd = 0 := by
      rw [coverage4, hm, hjw]
      norm_num [jround]
    refine ⟨hcov, ?_, ?_, ?_⟩
    · rw [score4, hcov]
      norm_num [jround]
    · show (matched4 resume jd).take 100 = []
      rw [hm]; rfl
    · show (missing4 resume jd).take 100 = []
      rw [hmiss]; rfl
  · intro h
    have hcov : coverage3 resume jd = 0 := by simp [coverage3, h]
    refine ⟨hcov, ?_⟩
    rw [score3, hcov]
    rfl

/-- C3 witness: the empty job-description string on both engines. -/
theorem empty_jd_safe_witness :
    tokens3 "".data = [] ∧ jdWords3 "".data = [] ∧
    coverage4 "skills experience".data "".data = 0 ∧
    score4 "skills experience".data "".data = 60 ∧
    coverage3 "skills experience".data "".data = 0 ∧
    score3 "skills experience".data "".data = 0 := by
  have h := empty_jd_safe "skills experience".data "".data 0
  have h1 := h.1 (by decide)
  have h2 := h.2 (by decide)
  exact ⟨by decide, by decide, h1.1, h1.2.1, h2.1, h2.2⟩

/-! ## Claim C9 — insight deduplication and cap -/

/-- C9: `actionableTips` deduplicates the generated tips before
truncating to the cap of 20: the returned sequence has no duplicates,
has length at most 20, and — because deduplication comes first — no
generated tip is lost whenever the distinct tips fit the cap. -/
theorem insights_dedup_capped (r : Option AData) :
    (actionableTips r).Nodup ∧ (actionableTips r).length ≤ 20 ∧
    (∀ tp, tp ∈ rawTips r → (jsDedup (rawTips r)).length ≤ 20 → tp ∈ actionableTips r) := by
  refine ⟨?_, ?_, ?_⟩
  · exact List.Nodup.sublist (List.take_sublist _ _) (nodup_jsDedup _)
  · exact List.length_take_le _ _
  · intro tp ht hlen
    rw [actionableTips, List.take_of_length_le hlen]
    exact (mem_jsDedup _ _).mpr ht

/-- C9 witness: a result with one missing keyword; both templated tips
survive into the deduplicated, capped output. -/
theorem insights_dedup_capped_witness :
    tipBullet "python" ∈ rawTips (some
      { matchedKeywords := none, missingKeywords := some ["python"],
        requiredKeywords := none, sectionScores := none, experienceMatch := .nan }) ∧
    tipBullet "python" ∈ actionableTips (some
      { matchedKeywords := none, missingKeywords := some ["python"],
        requiredKeywords := none, sectionScores := none, experienceMatch := .nan }) ∧
    (actionableTips (some
      { matchedKeywords := none, missingKeywords := some ["python"],
        requiredKeywords := none, sectionScores := none, experienceMatch := .nan })).Nodup := by
  have h := insights_dedup_capped (some
    { matchedKeywords := none, missingKeywords := some ["python"],
      requiredKeywords := none, sectionScores := none, experienceMatch := .nan })
  exact ⟨by decide, h.2.2 _ (by decide) (by decide), h.1⟩

/-! ## Bounds lemmas for the display-layer composite -/

theorem keywordTotal5_pos (d : AData) : 0 < keywordTotal5 d := by
  rw [keywordTotal5]
  split
  · exact Nat.one_pos
  · omega

theorem keywordRate5_bounds (d : AData) : 0 ≤ keywordRate5 d ∧ keywordRate5 d ≤ 1 := by
  have ht : (0 : ℚ) < (keywordTotal5 d : ℚ) := by
    exact_mod_cast keywordTotal5_pos d
  constructor
  · rw [keywordRate5]
    positivity
  · rw [keywordRate5, div_le_one ht]
    rw [keywordTotal5]
    split
    · have : matchedCount5 d = 0 := by omega
      rw [this]
      norm_num
    · exact_mod_cast Nat.le_add_right _ _

theorem sectionAvg5_bounds (d : AData)
    (hsec : ∀ kv ∈ d.sectionScores.getD [], ∀ v, toNumber kv.2 = some v → 0 ≤ v ∧ v ≤ 100) :
    0 ≤ sectionAvg5 d ∧ sectionAvg5 d ≤ 1 := by
  have hmem : ∀ v ∈ sectionVals5 d, 0 ≤ v ∧ v ≤ 100 := by
    intro v hv
    rw [sectionVals5, List.mem_filterMap] at hv
    obtain ⟨kv, hkv, htn⟩ := hv
    exact hsec kv hkv v htn
  rw [sectionAvg5]
  split
  · exact ⟨le_refl 0, zero_le_one⟩
  · rename_i hne
    have hlen : (0 : ℚ) < ((sectionVals5 d).length : ℚ) := by
      have hne' : sectionVals5 d ≠ [] := by
        intro hc
        rw [hc] at hne
        exact hne rfl
      exact_mod_cast Nat.pos_of_ne_zero (fun hc => hne' (List.length_eq_zero.mp hc))
    have hsum0 : 0 ≤ (sectionVals5 d).sum :=
      List.sum_nonneg (fun v hv => (hmem v hv).1)
    have hsum : (sectionVals5 d).sum ≤ ((sectionVals5 d).length : ℚ) * 100 := by
      have := List.sum_le_card_nsmul (sectionVals5 d) 100 (fun v hv => (hmem v hv).2)
      rwa [nsmul_eq_mul] at this
    constructor
    · positivity
    · rw [div_le_one (by norm_num : (0 : ℚ) < 100), div_le_iff₀ hlen]
      linarith

theorem jround_bounds {q : ℚ} (h0 : 0 ≤ q) (h1 : q ≤ 100) :
    0 ≤ jround q ∧ jround q ≤ 100 := by
  rw [jround]
  constructor
  · exact Int.le_floor.mpr (by push_cast; linarith)
  · have h2 : ⌊q + 1/2⌋ < 101 := Int.floor_lt.mpr (by push_cast; linarith)
    omega

theorem toNumber_jsOr_num (q : ℚ) : toNumber (jsOr (.num q) (.num 0)) = some q := by
  rcases eq_or_ne q 0 with rfl | h
  · simp [jsOr, truthy, toNumber]
  · simp [jsOr, truthy, h, toNumber]

/-! ## Claim C1 — composite score weighting -/

/-- C1 counterexample: `part_004`'s scoring engine does not use the
40/30/30 weighting.  For resume "java developer" and JD "java python" it
computes `coverage = 50` and `score = min(100, round(60 + 50*0.4)) = 80`,
whereas the claimed formula (with the result's absent section and
experience components read as 0) gives `round(50*0.4 + 0 + 0) = 20`. -/
theorem score_weighting_counterexample :
    (runAnalysisResult "java developer".data "java python".data 0).coverage = 50 ∧
    (runAnalysisResult "java developer".data "java python".data 0).score = 80 ∧
    min 100 (max 0 (jround ((50 : ℚ) * 0.4 + 0 * 0.3 + 0 * 0.3))) = 20 ∧
    (runAnalysisResult "java developer".data "java python".data 0).score ≠
      min 100 (max 0 (jround ((50 : ℚ) * 0.4 + 0 * 0.3 + 0 * 0.3))) := by
  have h1 : (matched4 "java developer".data "java python".data).length = 1 := rfl
  have h2 : (jdWords4 "java python".data).length = 2 := rfl
  have hcov : coverage4 "java developer".data "java python".data = 50 := by
    rw [coverage4, h1, h2]
    norm_num [jround]
  have hsc : score4 "java developer".data "java python".data = 80 := by
    rw [score4, hcov]
    norm_num [jround]
  have hf : min 100 (max 0 (jround ((50 : ℚ) * 0.4 + 0 * 0.3 + 0 * 0.3))) = 20 := by
    norm_num [jround]
  refine ⟨hcov, hsc, hf, ?_⟩
  rw [hf]
  show score4 "java developer".data "java python".data ≠ 20
  rw [hsc]
  decide

/-- C1 (amended): the 40/30/30 weighting is the formula of the
display-boundary recomputations only.  `part_005`'s `computeATSScore`
rounds `(keywordRate*0.4 + sectionAvg*0.3 + clampedExperience*0.3)*100`
and its result lies in `[0, 100]` whenever the section values lie in
`[0, 100]` (the clamp bounds the experience term); `Analysis.jsx`'s
`computeATSScore` rounds `coverage*0.4 + sectionScores.overall*0.3 +
experienceMatch*0.3` without clamping.  The Dashboard scoring engines
use different formulas: `part_004` computes
`min(100, round(60 + coverage*0.4))` and `part_003` computes
`min(coverage, 100)` (see the counterexample). -/
theorem score_weighting_amended :
    (∀ (d : AData) (q : ℚ),
      toNumber (jsOr d.experienceMatch (.num 0)) = some q →
      (∀ kv ∈ d.sectionScores.getD [], ∀ v, toNumber kv.2 = some v → 0 ≤ v ∧ v ≤ 100) →
      computeATSScore5 (some d) =
        some (jround ((keywordRate5 d * 0.4 + sectionAvg5 d * 0.3 +
          max 0 (min 1 q) * 0.3) * 100)) ∧
      (∀ z, computeATSScore5 (some d) = some z → 0 ≤ z ∧ z ≤ 100)) ∧
    (∀ k sc e : ℚ,
      computeATSScoreJsx (some ⟨.num k, .num sc, .num e⟩) =
        some (jround (k * 0.4 + sc * 0.3 + e * 0.3))) := by
  constructor
  · intro d q hq hsec
    have hexp : experience5 d = some (max 0 (min 1 q)) := by
      rw [experience5, hq]
      rfl
    have heq : computeATSScore5 (some d) =
        some (jround ((keywordRate5 d * 0.4 + sectionAvg5 d * 0.3 +
          max 0 (min 1 q) * 0.3) * 100)) := by
      simp only [computeATSScore5, hexp, Option.map_some']
    refine ⟨heq, fun z hz => ?_⟩
    rw [heq] at hz
    obtain rfl : z = jround ((keywordRate5 d * 0.4 + sectionAvg5 d * 0.3 +
        max 0 (min 1 q) * 0.3) * 100) := (Option.some_injective _ hz).symm
    obtain ⟨hk0, hk1⟩ := keywordRate5_bounds d
    obtain ⟨hs0, hs1⟩ := sectionAvg5_bounds d hsec
    have he0 : (0 : ℚ) ≤ max 0 (min 1 q) := le_max_left _ _
    have he1 : max 0 (min 1 q) ≤ 1 := max_le zero_le_one (min_le_left _ _)
    exact jround_bounds (by nlinarith) (by nlinarith)
  · intro k sc e
    simp only [computeATSScoreJsx, toNumber_jsOr_num]

/-- C1 witness: the amended display-boundary formula at a concrete
result with no keywords, no sections and an absent experience field. -/
theorem score_weighting_witness :
    computeATSScore5 (some
      { matchedKeywords := none, missingKeywords := none, requiredKeywords := none,
        sectionScores := none, experienceMatch := .undef }) = some 0 := by
  have h := (score_weighting_amended.1
    { matchedKeywords := none, missingKeywords := none, requiredKeywords := none,
      sectionScores := none, experienceMatch := .undef } 0 rfl (by simp)).1
  rw [h]
  norm_num [keywordRate5, matchedCount5, missingCount5, keywordTotal5,
    sectionAvg5, sectionVals5, jround]

/-! ## Claim C10 — display-boundary totality -/

/-- C10 counterexample: a non-numeric `experienceMatch` (the string
"Strong", which `part_003`'s engine actually produces) makes `part_005`'s
`computeATSScore` return `NaN` (`none`), not an integer: `Number('Strong')`
is `NaN`, and `Math.max(0, Math.min(1, NaN))` propagates it through the
clamp into the weighted sum and `Math.round`. -/
theorem display_score_total_counterexample :
    computeATSScore5 (some
      { matchedKeywords := some [], missingKeywords := some [],
        requiredKeywords := none, sectionScores := some [],
        experienceMatch := .str "Strong" }) = none := by
  decide

/-- C10 (amended): the display-boundary recomputation returns `0` for a
null result and an integer for any result whose `experienceMatch`
coerces to a number (in particular for missing fields, which default to
0, and regardless of non-numeric section values, which the `isNaN`
filter drops), clamping the numeric experience into `[0, 1]`; but a
result whose `experienceMatch` coerces to `NaN` yields `NaN`, not an
integer (see the counterexample). -/
theorem display_score_total_amended :
    computeATSScore5 none = some 0 ∧
    computeATSScoreJsx none = some 0 ∧
    (∀ d : AData, (toNumber (jsOr d.experienceMatch (.num 0))).isSome →
      (computeATSScore5 (some d)).isSome) ∧
    (∀ (d : AData) (q : ℚ), toNumber (jsOr d.experienceMatch (.num 0)) = some q →
      experience5 d = some (max 0 (min 1 q)) ∧
      0 ≤ max 0 (min 1 q) ∧ max 0 (min 1 q) ≤ 1) := by
  refine ⟨rfl, rfl, ?_, ?_⟩
  · intro d h
    rcases Option.isSome_iff_exists.mp h with ⟨q, hq⟩
    simp [computeATSScore5, experience5, hq]
  · intro d q hq
    refine ⟨?_, le_max_left _ _, max_le zero_le_one (min_le_left _ _)⟩
    rw [experience5, hq]
    rfl

/-- C10 witness: a result with every field absent still produces an
integer, and the null result produces 0. -/
theorem display_score_total_witness :
    (computeATSScore5 (some
      { matchedKeywords := none, missingKeywords := none, requiredKeywords := none,
        sectionScores := none, experienceMatch := .undef })).isSome ∧
    computeATSScore5 none = some 0 := by
  have h := display_score_total_amended
  exact ⟨h.2.2.1 _ (by decide), h.1⟩

/-! ## Character and tokenizer lemmas (for claim C8) -/

theorem uint32_toBitVec_toNat (x : UInt32) : x.toBitVec.toNat = x.toNat := rfl

theorem isUpper_toNat {c : Char} : c.isUpper = true ↔ 65 ≤ c.toNat ∧ c.toNat ≤ 90 := by
  simp [Char.isUpper, Char.toNat, UInt32.le_def, BitVec.le_def, uint32_toBitVec_toNat]

theorem isLower_toNat {c : Char} : c.isLower = true ↔ 97 ≤ c.toNat ∧ c.toNat ≤ 122 := by
  simp [Char.isLower, Char.toNat, UInt32.le_def, BitVec.le_def, uint32_toBitVec_toNat]

theorem charOfNat_toNat {n : ℕ} (h : n < 55296) : (Char.ofNat n).toNat = n := by
  rw [Char.ofNat, dif_pos (Or.inl h)]
  rfl

theorem toLower_eq_of_not_upper {c : Char} (h : ¬(65 ≤ c.toNat ∧ c.toNat ≤ 90)) :
    Char.toLower c = c := by
  rw [Char.toLower]
  simp only [ge_iff_le]
  rw [if_neg h]

theorem toLower_eq_of_upper {c : Char} (h : 65 ≤ c.toNat ∧ c.toNat ≤ 90) :
    Char.toLower c = Char.ofNat (c.toNat + 32) := by
  rw [Char.toLower]
  simp only [ge_iff_le]
  rw [if_pos h]

theorem isLower_toLower_eq_isAlpha (c : Char) : (Char.toLower c).isLower = c.isAlpha := by
  by_cases h : 65 ≤ c.toNat ∧ c.toNat ≤ 90
  · rw [toLower_eq_of_upper h]
    have ht : (Char.ofNat (c.toNat + 32)).toNat = c.toNat + 32 :=
      charOfNat_toNat (by omega)
    have hl : (Char.ofNat (c.toNat + 32)).isLower = true :=
      isLower_toNat.mpr (by omega)
    have ha : c.isAlpha = true := by
      rw [Char.isAlpha, isUpper_toNat.mpr h, Bool.true_or]
    rw [hl, ha]
  · rw [toLower_eq_of_not_upper h, Char.isAlpha]
    have hu : c.isUpper = false := by
      cases hc : c.isUpper
      · rfl
      · exact absurd (isUpper_toNat.mp hc) h
    rw [hu, Bool.false_or]

theorem toLower_eq_self_of_isLower {c : Char} (h : c.isLower = true) : Char.toLower c = c := by
  have := isLower_toNat.mp h
  exact toLower_eq_of_not_upper (by omega)

theorem isLower_of_isAlpha_toLower {x : Char} (h : (Char.toLower x).isAlpha = true) :
    (Char.toLower x).isLower = true := by
  rw [isLower_toLower_eq_isAlpha]
  by_cases hx : 65 ≤ x.toNat ∧ x.toNat ≤ 90
  · rw [Char.isAlpha, isUpper_toNat.mpr hx, Bool.true_or]
  · rw [toLower_eq_of_not_upper hx] at h
    exact h

theorem runsAux_chars (p : Char → Bool) :
    ∀ (l acc : List Char), (∀ c ∈ acc, p c = true) →
      ∀ r ∈ runsAux p acc l, ∀ c ∈ r, p c = true ∧ (c ∈ acc ∨ c ∈ l) := by
  intro l
  induction l with
  | nil =>
    intro acc hacc r hr c hc
    rw [runsAux] at hr
    by_cases hacce : acc.isEmpty
    · rw [if_pos hacce] at hr
      exact absurd hr (List.not_mem_nil r)
    · rw [if_neg hacce] at hr
      rcases List.mem_singleton.mp hr with rfl
      have : c ∈ acc := List.mem_reverse.mp hc
      exact ⟨hacc c this, Or.inl this⟩
  | cons x xs ih =>
    intro acc hacc r hr c hc
    rw [runsAux] at hr
    by_cases hpx : p x = true
    · rw [if_pos hpx] at hr
      have hacc' : ∀ d ∈ x :: acc, p d = true := by
        intro d hd
        rcases List.mem_cons.mp hd with rfl | hd
        · exact hpx
        · exact hacc d hd
      obtain ⟨h1, h2⟩ := ih (x :: acc) hacc' r hr c hc
      refine ⟨h1, ?_⟩
      rcases h2 with h2 | h2
      · rcases List.mem_cons.mp h2 with rfl | h2
        · exact Or.inr (List.mem_cons_self _ _)
        · exact Or.inl h2
      · exact Or.inr (List.mem_cons_of_mem _ h2)
    · rw [if_neg hpx] at hr
      by_cases hacce : acc.isEmpty
      · rw [if_pos hacce] at hr
        obtain ⟨h1, h2⟩ := ih [] (by simp) r hr c hc
        rcases h2 with h2 | h2
        · exact absurd h2 (List.not_mem_nil c)
        · exact ⟨h1, Or.inr (List.mem_cons_of_mem _ h2)⟩
      · rw [if_neg hacce] at hr
        rcases List.mem_cons.mp hr with rfl | hr
        · have : c ∈ acc := List.mem_reverse.mp hc
          exact ⟨hacc c this, Or.inl this⟩
        · obtain ⟨h1, h2⟩ := ih [] (by simp) r hr c hc
          rcases h2 with h2 | h2
          · exact absurd h2 (List.not_mem_nil c)
          · exact ⟨h1, Or.inr (List.mem_cons_of_mem _ h2)⟩

theorem runsAux_break (p : Char → Bool) {c : Char} (hc : p c = false) (b : List Char) :
    ∀ (a acc : List Char),
      runsAux p acc (a ++ c :: b) = runsAux p acc a ++ runsAux p [] b := by
  intro a
  induction a with
  | nil =>
    intro acc
    rw [List.nil_append, runsAux, runsAux, hc]
    by_cases hacce : acc.isEmpty
    · simp only [if_pos hacce, Bool.false_eq_true, if_false, List.nil_append]
    · simp only [if_neg hacce, Bool.false_eq_true, if_false, List.cons_append, List.nil_append]
  | cons x xs ih =>
    intro acc
    rw [List.cons_append, runsAux, runsAux]
    by_cases hpx : p x = true
    · rw [if_pos hpx, if_pos hpx, ih]
    · rw [if_neg hpx, if_neg hpx]
      by_cases hacce : acc.isEmpty
      · rw [if_pos hacce, if_pos hacce, ih]
      · rw [if_neg hacce, if_neg hacce, ih, List.cons_append]

theorem runsAux_all_sat (p : Char → Bool) :
    ∀ (w acc : List Char), (∀ c ∈ w, p c = true) →
      runsAux p acc w = if (acc.reverse ++ w).isEmpty then [] else [acc.reverse ++ w] := by
  intro w
  induction w with
  | nil =>
    intro acc hw
    rw [runsAux, List.append_nil]
    by_cases hacce : acc.isEmpty
    · rw [if_pos hacce, if_pos]
      rw [List.isEmpty_iff] at hacce ⊢
      rw [hacce]
      rfl
    · rw [if_neg hacce, if_neg]
      intro hco
      rw [List.isEmpty_iff] at hco
      have : acc = [] := by
        cases hacc2 : acc with
        | nil => rfl
        | cons y ys => rw [hacc2] at hco; simp at hco
      rw [this] at hacce
      exact hacce rfl
  | cons d w' ih =>
    intro acc hw
    rw [runsAux, if_pos (hw d (List.mem_cons_self _ _)), ih (d :: acc)
      (fun c hcmem => hw c (List.mem_cons_of_mem _ hcmem))]
    have harr : (d :: acc).reverse ++ w' = acc.reverse ++ d :: w' := by
      rw [List.reverse_cons, List.append_assoc]
      rfl
    rw [harr]

theorem splitRuns_break {p : Char → Bool} {c : Char} (hc : p c = false)
    (a b : List Char) :
    splitRuns p (a ++ c :: b) = splitRuns p a ++ splitRuns p b := by
  rw [splitRuns, splitRuns, splitRuns, runsAux_break p hc b a []]

theorem splitRuns_all_sat {p : Char → Bool} {w : List Char}
    (hw : ∀ c ∈ w, p c = true) (hne : w ≠ []) : splitRuns p w = [w] := by
  rw [splitRuns, runsAux_all_sat p w [] hw]
  rw [List.reverse_nil, List.nil_append, if_neg]
  intro hco
  rw [List.isEmpty_iff] at hco
  exact hne hco

theorem tokens3_chars {t w : List Char} (hw : w ∈ tokens3 t) :
    (∀ c ∈ w, c.isLower = true) ∧ 3 ≤ w.length := by
  rw [tokens3, List.mem_filter] at hw
  obtain ⟨hmem, hlen⟩ := hw
  refine ⟨?_, by simpa using hlen⟩
  intro c hcmem
  obtain ⟨hpc, hin⟩ := runsAux_chars Char.isAlpha (jsLower t) [] (by simp) w hmem c hcmem
  rcases hin with hin | hin
  · exact absurd hin (List.not_mem_nil c)
  · rw [jsLower, List.mem_map] at hin
    obtain ⟨x, _, rfl⟩ := hin
    exact isLower_of_isAlpha_toLower hpc

theorem jsLower_fixed {w : List Char} (hw : ∀ c ∈ w, c.isLower = true) :
    jsLower w = w := by
  rw [jsLower]
  have h2 : ∀ c ∈ w, Char.toLower c = c := fun c hc => toLower_eq_self_of_isLower (hw c hc)
  rw [List.map_congr_left h2]
  exact List.map_id w

theorem tokens3_self {t w : List Char} (hw : w ∈ tokens3 t) : tokens3 w = [w] := by
  obtain ⟨hlow, hlen⟩ := tokens3_chars hw
  have hne : w ≠ [] := by
    intro hc
    rw [hc] at hlen
    simp at hlen
  have halpha : ∀ c ∈ w, c.isAlpha = true := by
    intro c hc
    rw [Char.isAlpha, hlow c hc, Bool.or_true]
  rw [tokens3, jsLower_fixed hlow, splitRuns_all_sat halpha hne]
  simp [List.filter_cons, hlen]

theorem tokens3_append_sep (a b : List Char) :
    tokens3 (a ++ ' ' :: b) = tokens3 a ++ tokens3 b := by
  have hlow : jsLower (a ++ ' ' :: b) = jsLower a ++ ' ' :: jsLower b := by
    rw [jsLower, List.map_append, List.map_cons]
    rfl
  have hsp : Char.isAlpha ' ' = false := by decide
  rw [tokens3, hlow, splitRuns_break hsp, List.filter_append]
  rfl

theorem jround_mono {a b : ℚ} (h : a ≤ b) : jround a ≤ jround b :=
  Int.floor_le_floor (by linarith)

theorem toLower_toLower (x : Char) :
    Char.toLower (Char.toLower x) = Char.toLower x := by
  by_cases h : 65 ≤ x.toNat ∧ x.toNat ≤ 90
  · rw [toLower_eq_of_upper h]
    have ht : (Char.ofNat (x.toNat + 32)).toNat = x.toNat + 32 := charOfNat_toNat (by omega)
    exact toLower_eq_of_not_upper (by omega)
  · rw [toLower_eq_of_not_upper h]
    exact toLower_eq_of_not_upper h

theorem runsAux_ne_nil (p : Char → Bool) :
    ∀ (l acc : List Char), ∀ r ∈ runsAux p acc l, r ≠ [] := by
  intro l
  induction l with
  | nil =>
    intro acc r hr
    rw [runsAux] at hr
    by_cases hacce : acc.isEmpty
    · rw [if_pos hacce] at hr
      exact absurd hr (List.not_mem_nil r)
    · rw [if_neg hacce] at hr
      rcases List.mem_singleton.mp hr with rfl
      intro hc
      rw [List.isEmpty_iff] at hacce
      exact hacce (List.reverse_eq_nil_iff.mp hc)
  | cons x xs ih =>
    intro acc r hr
    rw [runsAux] at hr
    by_cases hpx : p x = true
    · rw [if_pos hpx] at hr
      exact ih (x :: acc) r hr
    · rw [if_neg hpx] at hr
      by_cases hacce : acc.isEmpty
      · rw [if_pos hacce] at hr
        exact ih [] r hr
      · rw [if_neg hacce] at hr
        rcases List.mem_cons.mp hr with rfl | hr
        · intro hc
          rw [List.isEmpty_iff] at hacce
          exact hacce (List.reverse_eq_nil_iff.mp hc)
        · exact ih [] r hr

theorem jsLower_fixed_of_from_lowered {t w : List Char}
    (hin : ∀ c ∈ w, c ∈ jsLower t) : jsLower w = w := by
  rw [jsLower]
  have h2 : ∀ c ∈ w, Char.toLower c = c := by
    intro c hc
    obtain ⟨x, _, rfl⟩ := List.mem_map.mp (hin c hc)
    exact toLower_toLower x
  rw [List.map_congr_left h2]
  exact List.map_id w

theorem tokensW_self {t w : List Char} (hw : w ∈ tokensW t) : tokensW w = [w] := by
  rw [tokensW, splitRuns] at hw
  have hne : w ≠ [] := runsAux_ne_nil isWordChar (jsLower t) [] w hw
  have hchars := runsAux_chars isWordChar (jsLower t) [] (by simp) w hw
  have hword : ∀ c ∈ w, isWordChar c = true := fun c hc => (hchars c hc).1
  have hfix : jsLower w = w := by
    apply jsLower_fixed_of_from_lowered (t := t)
    intro c hc
    rcases (hchars c hc).2 with h | h
    · exact absurd h (List.not_mem_nil c)
    · exact h
  rw [tokensW, hfix, splitRuns_all_sat hword hne]

theorem tokensW_append_sep (a b : List Char) :
    tokensW (a ++ ' ' :: b) = tokensW a ++ tokensW b := by
  have hlow : jsLower (a ++ ' ' :: b) = jsLower a ++ ' ' :: jsLower b := by
    rw [jsLower, List.map_append, List.map_cons]
    rfl
  have hsp : isWordChar ' ' = false := by decide
  rw [tokensW, hlow, splitRuns_break hsp]
  rfl

/-! ## Claim C8 — coverage monotonicity -/

/-- C8: adding a job-description keyword `w` to the resume text (as a
new whitespace-separated word, the reading under which "adding a
keyword" preserves the existing words) never decreases the coverage of
either cited scoring engine — `part_004`'s `runAnalysis` or `part_003`'s
`mockAnalysisEngine`: in each, the job-description token list is
unchanged and the resume token set only grows, so the matched count and
hence the rounded ratio cannot drop. -/
theorem coverage_monotone (resume jd w : List Char) :
    (w ∈ jdWords4 jd → coverage4 resume jd ≤ coverage4 (resume ++ ' ' :: w) jd) ∧
    (w ∈ jdWords3 jd → coverage3 resume jd ≤ coverage3 (resume ++ ' ' :: w) jd) := by
  constructor
  · intro hw
    have hwt : w ∈ tokens3 jd := (mem_jsDedup _ _).mp hw
    have htok : tokens3 (resume ++ ' ' :: w) = tokens3 resume ++ [w] := by
      rw [tokens3_append_sep, tokens3_self hwt]
    have hsub : ∀ x, x ∈ resumeWords4 resume → x ∈ resumeWords4 (resume ++ ' ' :: w) := by
      intro x hx
      rw [resumeWords4, htok]
      exact List.mem_append_left _ hx
    have hcount : (matched4 resume jd).length ≤ (matched4 (resume ++ ' ' :: w) jd).length := by
      rw [matched4, matched4, ← List.countP_eq_length_filter, ← List.countP_eq_length_filter]
      apply List.countP_mono_left
      intro x hx hpx
      simp only [decide_eq_true_eq] at hpx ⊢
      exact hsub x hpx
    rw [coverage4, coverage4]
    apply jround_mono
    gcongr
  · intro hw
    have hwt : w ∈ tokensW jd := hw
    have htok : tokensW (resume ++ ' ' :: w) = tokensW resume ++ [w] := by
      rw [tokensW_append_sep, tokensW_self hwt]
    have hsub : ∀ x, x ∈ resumeWords3 resume → x ∈ resumeWords3 (resume ++ ' ' :: w) := by
      intro x hx
      rw [resumeWords3, htok]
      exact List.mem_append_left _ hx
    have hcount : (common3 resume jd).length ≤ (common3 (resume ++ ' ' :: w) jd).length := by
      rw [common3, common3, ← List.countP_eq_length_filter, ← List.countP_eq_length_filter]
      apply List.countP_mono_left
      intro x hx hpx
      simp only [decide_eq_true_eq] at hpx ⊢
      exact hsub x hpx
    by_cases hz : (jdWords3 jd).length = 0
    · rw [coverage3, coverage3, if_pos hz, if_pos hz]
    · rw [coverage3, coverage3, if_neg hz, if_neg hz]
      apply jround_mono
      have hpos : (0 : ℚ) < ((jdWords3 jd).length : ℚ) := by
        exact_mod_cast Nat.pos_of_ne_zero hz
      gcongr

/-- C8 witness: adding the missing keyword "python" to a concrete resume
does not decrease the coverage of either engine. -/
theorem coverage_monotone_witness :
    "python".data ∈ jdWords4 "java python".data ∧
    coverage4 "java developer".data "java python".data ≤
      coverage4 ("java developer".data ++ ' ' :: "python".data) "java python".data ∧
    "python".data ∈ jdWords3 "java python".data ∧
    coverage3 "java developer".data "java python".data ≤
      coverage3 ("java developer".data ++ ' ' :: "python".data) "java python".data :=
  ⟨by decide,
    (coverage_monotone "java developer".data "java python".data "python".data).1 (by decide),
    by decide,
    (coverage_monotone "java developer".data "java python".data "python".data).2 (by decide)⟩

end AtsBoost
